import Mathlib

/-!
Verification of the deno-ts-importer transformation engine.

This file gives a shallow embedding of the TsImporter class
(src ts_importer.ts) together with the pieces of replace_imports.ts it
relies on, and proves or refutes the frozen claims about it.

Modelling conventions:
the JS string operations are modelled over the character list of a Lean
string; module source text is modelled as a list of pieces (literal text, an
occurrence of an import specifier, and import.meta.url occurrences), which is
the level of abstraction at which the external dependency extractor
reports edges; the annotation stripper, the dynamic loader, the jsr and
npm resolver, and the deno.json discovery are external collaborators and
enter the model as function parameters; the asynchronous engine is
modelled as a sequential fuelled interpreter threading the per-instance
state explicitly.
-/

/-- JS s.startsWith(p), modelled on the character lists. -/
def jsStartsWith (s p : String) : Bool :=
  p.data.isPrefixOf s.data

/-- JS s.slice(n), modelled on the character lists. -/
def jsSlice (s : String) (n : Nat) : String :=
  ⟨s.data.drop n⟩

/-- JS s.length, modelled as the character count. -/
def jsLength (s : String) : Nat :=
  s.data.length

/-- First character of a string, if any; models JS specifier[0]. -/
def jsHead (s : String) : Option Char :=
  s.data.head?

/-- Characters allowed in a URL scheme after the first letter. -/
def isSchemeChar (c : Char) : Bool :=
  c.isAlpha || c.isDigit || c = '+' || c = '-' || c = '.'

/-- Whether the string parses as an absolute URL: a letter-led scheme
followed by a colon.  Models the success of JS new URL(s) without a base. -/
def hasUrlScheme (s : String) : Bool :=
  match s.data with
  | [] => false
  | c :: _ => c.isAlpha && ((s.data.dropWhile isSchemeChar).head? = some ':')

/-- The directory part of a URL or path: everything up to and including the
last slash. -/
def dirOf (base : String) : String :=
  ⟨((base.data.reverse.dropWhile (fun c => c ≠ '/'))).reverse⟩

/-- Parent directory of a directory character list that ends in a slash. -/
def parentDir (dir : List Char) : List Char :=
  ((dir.dropLast.reverse.dropWhile (fun c => c ≠ '/'))).reverse

/-- Resolve the leading dot segments of a relative specifier against a
directory, as WHATWG URL resolution does. -/
def relResolve (dir : List Char) : List Char → List Char
  | [] => dir
  | c :: rest =>
    if c = '.' then
      match rest with
      | '/' :: r2 => relResolve dir r2
      | '.' :: '/' :: r3 => relResolve (parentDir dir) r3
      | _ => dir ++ (c :: rest)
    else dir ++ (c :: rest)

/-- The scheme-and-host part of a URL, used for root-relative resolution. -/
def originAux : List Char → List Char
  | ':' :: '/' :: '/' :: rest => ':' :: '/' :: '/' :: (rest.takeWhile (fun c => c ≠ '/'))
  | _ :: rest => (originAux rest)
  | [] => []

/-- The origin of a URL: scheme, separator and host. -/
def originOf (base : String) : String :=
  ⟨(base.data.takeWhile (fun c => c ≠ ':')) ++ originAux base.data⟩

/-- Models JS new URL(spec, base).href: an absolute spec is taken as given,
a root-relative spec is resolved against the origin of the base, and any
other spec is resolved against the directory of the base. -/
def urlResolve (base spec : String) : String :=
  if hasUrlScheme spec then spec
  else if jsHead spec = some '/' then originOf base ++ spec
  else ⟨relResolve (dirOf base).data spec.data⟩

/-- One piece of module source text, at the granularity the dependency
extractor reports: plain text, one import or export specifier occurrence,
or one import.meta.url occurrence. -/
inductive Piece
  | lit (s : String)
  | spec (s : String)
  | meta
deriving DecidableEq

/-- Module source text as a list of pieces. -/
abbrev Code := List Piece

/-- An import map: direct mappings and scoped mappings, in insertion
order, mirroring Object.entries of the ImportMap type of import_map.ts. -/
structure ImportMap where
  imports : List (String × String)
  scopes : List (String × List (String × String))
deriving DecidableEq

/-- TsImporter.isRelativeOrFileUrl from ts_importer.ts. -/
def isRelativeOrFileUrl (specifier : String) : Bool :=
  jsHead specifier = some '.' || jsHead specifier = some '/' ||
    jsStartsWith specifier "file://"

/-- TsImporter.isHttpUrl from ts_importer.ts. -/
def isHttpUrl (specifier : String) : Bool :=
  jsStartsWith specifier "http://" || jsStartsWith specifier "https://"

/-- TsImporter.isJsr from ts_importer.ts. -/
def isJsr (specifier : String) : Bool :=
  jsStartsWith specifier "jsr:"

/-- TsImporter.isNpm from ts_importer.ts. -/
def isNpm (specifier : String) : Bool :=
  jsStartsWith specifier "npm:"

/-- isRemoteSpecifier from replace_imports.ts: http, https or data scheme. -/
def isRemoteSpecifier (specifier : String) : Bool :=
  jsStartsWith specifier "http:" || jsStartsWith specifier "https:" ||
    jsStartsWith specifier "data:"

/-- isJsrOrNpmSpecifier from replace_imports.ts. -/
def isJsrOrNpmSpecifier (specifier : String) : Bool :=
  isJsr specifier || isNpm specifier

/-- The inner loop of TsImporter.createOptimizedReplacer: scan an entry
list for the first key that equals the specifier or is a prefix of it
followed immediately by a slash, and return target plus remaining suffix. -/
def matchEntry (specifier : String) : List (String × String) → Option String
  | [] => none
  | (key, value) :: rest =>
    if specifier = key || jsStartsWith specifier (key ++ "/") then
      some (value ++ jsSlice specifier (jsLength key))
    else matchEntry specifier rest

/-- The scope loop of TsImporter.createOptimizedReplacer: scopes are
scanned in insertion order; a scope applies when the requesting module
location starts with the scope prefix; the first matching entry of an
applicable scope wins. -/
def scopeLookup (urlString specifier : String) :
    List (String × List (String × String)) → Option String
  | [] => none
  | (scope, entries) :: rest =>
    if jsStartsWith urlString scope then
      match matchEntry specifier entries with
      | some r => some r
      | none => scopeLookup urlString specifier rest
    else scopeLookup urlString specifier rest

/-- TsImporter.createOptimizedReplacer from ts_importer.ts: the direct table of
entries is checked first, the scope entries second, and an
unmatched specifier is returned unchanged. -/
def createOptimizedReplacer (urlString : String)
    (importEntries : List (String × String))
    (scopeEntries : List (String × List (String × String)))
    (specifier : String) : String :=
  match matchEntry specifier importEntries with
  | some r => r
  | none =>
    match scopeLookup urlString specifier scopeEntries with
    | some r => r
    | none => specifier

/-- Insert or overwrite a key in an association list, keeping the position
of an existing key; models JS Map.set and is also used for idempotent disk
writes keyed by path. -/
def listSet {α : Type} (k : String) (v : α) : List (String × α) → List (String × α)
  | [] => [(k, v)]
  | (k₀, v₀) :: rest => if k₀ = k then (k, v) :: rest else (k₀, v₀) :: listSet k v rest

/-- Deduplicate a list keeping first occurrences, modelling the insertion
order of a JS Set or of JS Map keys. -/
def dedup (xs : List String) : List String :=
  xs.foldl (fun acc x => if x ∈ acc then acc else acc ++ [x]) []

/-- TsImporter.hasImports from ts_importer.ts: the quick textual check
for import or export statements, which at the piece level is the presence
of a specifier occurrence. -/
def hasImports (code : Code) : Bool :=
  code.any fun p => match p with | .spec _ => true | _ => false

/-- TsImporter.hasImportMetaUrl from ts_importer.ts: the quick textual
check for import.meta usages, which at the piece level is the presence of
a meta piece. -/
def hasImportMetaUrl (code : Code) : Bool :=
  code.any fun p => match p with | .meta => true | _ => false

/-- replaceImportMeta from replace_import_meta.ts, modelled from the spec:
every module self-location token is rewritten to the original
pre-transformation location of the module. -/
def replaceImportMeta (code : Code) (urlString : String) : Code :=
  code.map fun p => match p with | .meta => .lit urlString | p => p

/-- createOriginalUrlComment from replace_import_meta.ts, modelled from the
spec: a traceability header identifying the original location. -/
def originalUrlComment (urlString : String) : String :=
  "// original: " ++ urlString

/-- replaceImports from replace_imports.ts: every import or export
specifier occurrence is rewritten; remote specifiers are skipped, jsr and
npm specifiers are resolved by the external deno loader (the extRes
parameter), and all others go through the replacer. -/
def replaceImports (code : Code) (extRes : String → String)
    (replacer : String → String) : Code :=
  code.map fun p => match p with
    | .spec s =>
      if isRemoteSpecifier s then .spec s
      else if isJsrOrNpmSpecifier s then .spec (extRes s)
      else .spec (replacer s)
    | p => p

/-- The specifiers of a module that reach the replacer of replaceImports,
in source order: every specifier occurrence that is neither remote nor a
jsr or npm specifier. -/
def collectedSpecs (code : Code) : List String :=
  code.filterMap fun p => match p with
    | .spec s =>
      if isRemoteSpecifier s || isJsrOrNpmSpecifier s then none else some s
    | _ => none

/-- Serialization of an entry list, used by the modelled cache key. -/
def serializeEntries (es : List (String × String)) : String :=
  es.foldl (fun acc kv => acc ++ kv.1 ++ "=" ++ kv.2 ++ ";") ""

/-- Serialization of an import map, used by the modelled cache key. -/
def serializeImportMap (m : ImportMap) : String :=
  serializeEntries m.imports ++ "|" ++
    m.scopes.foldl (fun acc sc => acc ++ sc.1 ++ "[" ++ serializeEntries sc.2 ++ "]") ""

/-- Serialization of one source piece, used by the modelled cache key. -/
def serializePiece : Piece → String
  | .lit s => "L(" ++ s ++ ")"
  | .spec s => "S(" ++ s ++ ")"
  | .meta => "M"

/-- Serialization of module text, used by the modelled cache key. -/
def serializeCode (c : Code) : String :=
  c.foldl (fun acc p => acc ++ serializePiece p ++ ";") ""

/-- Modelled from the spec: getCachePath of cache.ts is not under src.
Sections 3 and 4.4 of the design describe the cache key as a deterministic
content hash of the transformed pre-dependency-rewrite text plus a
serialization of the effective resolution table, distinct for any
difference in either input; the idealized injective hash is modelled as
the serialization itself.  The unused first parameter mirrors the call
shape getCachePath(urlString, code, importMap) at the call site. -/
def getCachePath (_urlString : String) (code : Code) (importMap : ImportMap) : String :=
  serializeCode code ++ "#" ++ serializeImportMap importMap

/-- TsImporter.getCacheUrl from ts_importer.ts: substitutes the empty
table when no import map is given, derives the cache path and joins it
under the cache directory as a file URL. -/
def getCacheUrl (cacheDir urlString : String) (code : Code)
    (importMap : Option ImportMap) : String :=
  "file://" ++ cacheDir ++ "/" ++
    getCachePath urlString code (importMap.getD ⟨[], []⟩)

/-- The per-instance state of a TsImporter: the memory cache of loaded
modules, the transformed-modules map, the processing-modules set, the
pending transformation promises, and observation logs for source reads,
disk-cache writes and warnings. -/
structure Engine where
  cache : List (String × String)
  transformedModules : List (String × String)
  processing : List String
  promises : List String
  reads : List String
  writes : List (String × Code)
  warnings : List String
deriving DecidableEq

/-- The fresh state of a newly constructed TsImporter. -/
def engine0 : Engine :=
  ⟨[], [], [], [], [], [], []⟩

/-- Terminal errors of a transformation. -/
inductive TErr
  | sourceUnavailable (url : String)
  | outOfFuel
deriving DecidableEq

/-- Outcome of one transformModule call: a cache location, an attachment
to the pending promise of an in-flight transformation of the same module
(which the sequential interpreter cannot await), or an error. -/
inductive TResult
  | ok (url : String)
  | pending (url : String)
  | err (e : TErr)
deriving DecidableEq

/-- Whether a transformation outcome is a success. -/
def TResult.isOk : TResult → Bool
  | .ok _ => true
  | _ => false

/-- The external collaborators of one engine run: source reading (local
read or remote fetch, none meaning unavailable), the annotation stripper,
the external jsr and npm resolver of replace_imports.ts, and the
configured cache directory. -/
structure Ctx where
  env : String → Option Code
  transpile : Code → Code
  extRes : String → String
  cacheDir : String

/-- TsImporter.readModuleContent: read the module source, logging the read
attempt. -/
def readModuleContent (ctx : Ctx) (urlString : String) (s : Engine) :
    Option Code × Engine :=
  (ctx.env urlString, { s with reads := s.reads ++ [urlString] })

/-- The warning logged when a dependency transformation fails, from the
catch handlers of TsImporter.processDependenciesParallel. -/
def warnMsg (specifier : String) : String :=
  "Failed to transform " ++ specifier

/-- TsImporter.processDependency: a relative or file specifier is resolved
against the parent module URL, any other is parsed as an absolute URL,
then the engine recurses. -/
def processDependency (tm : String → Engine → TResult × Engine)
    (baseUrl specifier : String) (s : Engine) : TResult × Engine :=
  tm (if isRelativeOrFileUrl specifier then urlResolve baseUrl specifier else specifier) s

/-- The shouldProcess test of TsImporter.processDependenciesParallel. -/
def shouldProcess (specifier : String) : Bool :=
  isRelativeOrFileUrl specifier || isHttpUrl specifier ||
    isJsr specifier || isNpm specifier

/-- One edge of TsImporter.processDependenciesParallel: recurse on the
dependency; on success record its cache location, on failure fall back to
the resolved but uncached specifier and log a warning, never failing the
parent. -/
def processOne (tm : String → Engine → TResult × Engine) (moduleUrl t : String)
    (acc : List (String × String) × Engine) : List (String × String) × Engine :=
  if shouldProcess t then
    match processDependency tm moduleUrl t acc.2 with
    | (.ok c, s) => (listSet t c acc.1, s)
    | (.pending c, s) => (listSet t c acc.1, s)
    | (.err _, s) =>
      (listSet t (if isRelativeOrFileUrl t then urlResolve moduleUrl t else t) acc.1,
        { s with warnings := s.warnings ++ [warnMsg t] })
  else acc

/-- TsImporter.processDependenciesParallel, sequentialized: process every
transformed specifier, then every local specifier not already covered by
the transformed map. -/
def processDeps (tm : String → Engine → TResult × Engine)
    (originalToTransformed : List (String × String)) (allLocal : List String)
    (moduleUrl : String) (s : Engine) : List (String × String) × Engine :=
  let acc1 := (originalToTransformed.map Prod.snd).foldl
    (fun acc t => processOne tm moduleUrl t acc) ([], s)
  allLocal.foldl
    (fun acc l =>
      if (List.lookup l originalToTransformed).isSome then acc
      else processOne tm moduleUrl l acc) acc1

/-- TsImporter.cacheModule: the fast path for modules with no imports;
rewrites import.meta.url if present, prepends the banner only when the
text changed, derives the cache URL, writes, and registers the
transformed-modules record. -/
def cacheModule (cacheDir urlString : String) (code : Code)
    (importMap : Option ImportMap) (s : Engine) : TResult × Engine :=
  let processedCode := if hasImportMetaUrl code then replaceImportMeta code urlString else code
  let finalCode :=
    if processedCode ≠ code then Piece.lit (originalUrlComment urlString) :: processedCode
    else processedCode
  let cacheUrl := getCacheUrl cacheDir urlString finalCode importMap
  (.ok cacheUrl,
    { s with writes := listSet cacheUrl finalCode s.writes,
             transformedModules := listSet urlString cacheUrl s.transformedModules })

/-- The body of the transformation promise of TsImporter.transformModule:
read, transpile, fast path or full pipeline of first-pass rewrite, early
cache registration, dependency processing, second-pass rewrite, banner and
write.  The recursion on dependencies enters through the tm parameter. -/
def transformBody (ctx : Ctx) (tm : String → Engine → TResult × Engine)
    (importMap : Option ImportMap) (urlString : String) (s : Engine) :
    TResult × Engine :=
  match readModuleContent ctx urlString s with
  | (none, s) => (.err (.sourceUnavailable urlString), s)
  | (some originalCode, s) =>
    let transpiledCode := ctx.transpile originalCode
    if !hasImports transpiledCode && !hasImportMetaUrl transpiledCode then
      cacheModule ctx.cacheDir urlString transpiledCode importMap s
    else
      let importEntries := (importMap.map ImportMap.imports).getD []
      let scopeEntries := (importMap.map ImportMap.scopes).getD []
      let applyMap := createOptimizedReplacer urlString importEntries scopeEntries
      let localSpecs := collectedSpecs transpiledCode
      let allLocalSpecifiers := dedup (localSpecs.filter isRelativeOrFileUrl)
      let originalToTransformed := (dedup localSpecs).map fun sp => (sp, applyMap sp)
      let transformedCode :=
        replaceImportMeta (replaceImports transpiledCode ctx.extRes applyMap) urlString
      let cacheUrl := getCacheUrl ctx.cacheDir urlString transformedCode importMap
      let s := { s with transformedModules := listSet urlString cacheUrl s.transformedModules }
      let r := processDeps tm originalToTransformed allLocalSpecifiers urlString s
      let finalCode :=
        if r.1.isEmpty then transformedCode
        else replaceImports transformedCode ctx.extRes
          (fun sp => (List.lookup sp r.1).getD sp)
      let codeWithBanner := Piece.lit (originalUrlComment urlString) :: finalCode
      (.ok cacheUrl,
        { r.2 with writes := listSet cacheUrl codeWithBanner r.2.writes })

/-- TsImporter.transformModule from ts_importer.ts, as a fuelled
interpreter: memoization check, in-flight check, in-flight marking, body,
and the finally clause that unconditionally clears the marker. -/
def transformModule (ctx : Ctx) : Nat → Option ImportMap → String → Engine → TResult × Engine
  | 0, _, _, s => (.err .outOfFuel, s)
  | fuel + 1, importMap, moduleUrl, s =>
    let urlString := moduleUrl
    match List.lookup urlString s.transformedModules with
    | some c => (.ok c, s)
    | none =>
      if urlString ∈ s.processing then
        if urlString ∈ s.promises then (.pending urlString, s) else (.ok urlString, s)
      else
        let s1 := { s with processing := urlString :: s.processing,
                           promises := urlString :: s.promises }
        let r := transformBody ctx (transformModule ctx fuel importMap) importMap urlString s1
        (r.1, { r.2 with processing := r.2.processing.erase urlString,
                         promises := r.2.promises.erase urlString })

/-- JS object spread merge of two entry lists, as in the two spreads of
TsImporter.import: keys of the first list keep their position but take the
second list's value on conflict; keys only in the second list follow in
its order. -/
def jsMerge {α : Type} (a b : List (String × α)) : List (String × α) :=
  (a.map fun kv => match List.lookup kv.1 b with
    | some v => (kv.1, v)
    | none => kv) ++
  b.filter fun kv => (List.lookup kv.1 a).isNone

/-- The effective import map computed by TsImporter.import: the per-call
map if given, else the instance map; when auto-discovery is on, no
per-call map was given and the target is a file URL, a discovered
deno.json map is spread over it, field by field. -/
def effectiveImportMapOf (instanceMap callMap : Option ImportMap)
    (discovered : Option ImportMap) (autoDiscover isFileUrl : Bool) :
    Option ImportMap :=
  let eff := match callMap with | some m => some m | none => instanceMap
  if autoDiscover && callMap.isNone && isFileUrl then
    match discovered with
    | some config =>
      some ⟨jsMerge ((eff.map ImportMap.imports).getD []) config.imports,
            jsMerge ((eff.map ImportMap.scopes).getD []) config.scopes⟩
    | none => eff
  else eff

/-- The target URL of TsImporter.import: new URL(specifier, import.meta.url),
the base being the URL of the importer library's own module file. -/
def importTargetUrl (importMetaUrl specifier : String) : String :=
  urlResolve importMetaUrl specifier

/-- Outcome of one TsImporter.import call. -/
inductive IResult
  | ok (value : String)
  | pending (url : String)
  | err (e : TErr)
deriving DecidableEq

/-- TsImporter.import from ts_importer.ts: memory cache check first,
specifier resolution against the library module URL, import map discovery
and merge, transformation, dynamic load (the external load parameter) and
memory-cache registration. -/
def importModule (ctx : Ctx) (importMetaUrl : String)
    (instanceMap : Option ImportMap) (autoDiscover : Bool)
    (discover : String → Option ImportMap) (load : String → String)
    (fuel : Nat) (specifier : String) (callMap : Option ImportMap)
    (s : Engine) : IResult × Engine :=
  match List.lookup specifier s.cache with
  | some v => (.ok v, s)
  | none =>
    let url := importTargetUrl importMetaUrl specifier
    let eff := effectiveImportMapOf instanceMap callMap (discover url)
      autoDiscover (jsStartsWith url "file://")
    match transformModule ctx fuel eff url s with
    | (.ok transformedUrl, s) =>
      let v := load transformedUrl
      (.ok v, { s with cache := listSet specifier v s.cache })
    | (.pending u, s) => (.pending u, s)
    | (.err e, s) => (.err e, s)

/-- Cons-step of an association lookup at the stored key. -/
theorem lookup_cons_eq {α : Type} (k : String) (v : α) (rest : List (String × α)) :
    List.lookup k ((k, v) :: rest) = some v := by
  simp [List.lookup]

/-- Cons-step of an association lookup at a different key. -/
theorem lookup_cons_ne {α : Type} {k k₀ : String} (v : α) (rest : List (String × α))
    (h : k₀ ≠ k) : List.lookup k₀ ((k, v) :: rest) = List.lookup k₀ rest := by
  have hb : (k₀ == k) = false := by simp [h]
  simp [List.lookup, hb]

/-- Looking up the key just set yields the value just set. -/
theorem lookup_listSet_self {α : Type} (k : String) (v : α) (m : List (String × α)) :
    List.lookup k (listSet k v m) = some v := by
  induction m with
  | nil => simp [listSet, lookup_cons_eq]
  | cons kv rest ih =>
    obtain ⟨k₀, v₀⟩ := kv
    by_cases h : k₀ = k
    · simp [listSet, h, lookup_cons_eq]
    · simp only [listSet, if_neg h]
      rw [lookup_cons_ne _ _ (Ne.symm h), ih]

/-- Setting one key leaves lookups of other keys unchanged. -/
theorem lookup_listSet_ne {α : Type} {k k₀ : String} (v : α) (m : List (String × α))
    (h : k₀ ≠ k) : List.lookup k₀ (listSet k v m) = List.lookup k₀ m := by
  induction m with
  | nil => simp [listSet, lookup_cons_ne _ _ h]
  | cons kv rest ih =>
    obtain ⟨k₁, v₁⟩ := kv
    by_cases h₁ : k₁ = k
    · subst h₁
      have hset : listSet k₁ v ((k₁, v₁) :: rest) = (k₁, v) :: rest := by simp [listSet]
      rw [hset, lookup_cons_ne _ _ h, lookup_cons_ne _ _ h]
    · simp only [listSet, if_neg h₁]
      by_cases h₂ : k₀ = k₁
      · subst h₂
        rw [lookup_cons_eq, lookup_cons_eq]
      · rw [lookup_cons_ne _ _ h₂, lookup_cons_ne _ _ h₂, ih]

/-- One dependency edge never disturbs the in-flight bookkeeping, provided
the recursive transformer does not. -/
theorem processOne_flight (tm : String → Engine → TResult × Engine)
    (H : ∀ u s, ((tm u s).2).processing = s.processing ∧ ((tm u s).2).promises = s.promises)
    (mu t : String) (acc : List (String × String) × Engine) :
    ((processOne tm mu t acc).2).processing = (acc.2).processing ∧
    ((processOne tm mu t acc).2).promises = (acc.2).promises := by
  unfold processOne processDependency
  split
  · have h := H (if isRelativeOrFileUrl t then urlResolve mu t else t) acc.2
    rcases htm : tm (if isRelativeOrFileUrl t then urlResolve mu t else t) acc.2 with ⟨r, s₁⟩
    rw [htm] at h
    cases r <;> simp_all
  · exact ⟨rfl, rfl⟩

/-- The first dependency loop never disturbs the in-flight bookkeeping. -/
theorem foldl_processOne_flight (tm : String → Engine → TResult × Engine)
    (H : ∀ u s, ((tm u s).2).processing = s.processing ∧ ((tm u s).2).promises = s.promises)
    (mu : String) : ∀ (ts : List String) (acc : List (String × String) × Engine),
    (((ts.foldl (fun acc t => processOne tm mu t acc) acc)).2).processing = (acc.2).processing ∧
    (((ts.foldl (fun acc t => processOne tm mu t acc) acc)).2).promises = (acc.2).promises := by
  intro ts
  induction ts with
  | nil => intro acc; exact ⟨rfl, rfl⟩
  | cons t ts ih =>
    intro acc
    rw [List.foldl_cons]
    obtain ⟨h1, h2⟩ := ih (processOne tm mu t acc)
    obtain ⟨g1, g2⟩ := processOne_flight tm H mu t acc
    exact ⟨h1.trans g1, h2.trans g2⟩

/-- The second dependency loop never disturbs the in-flight bookkeeping. -/
theorem foldl_local_flight (tm : String → Engine → TResult × Engine)
    (H : ∀ u s, ((tm u s).2).processing = s.processing ∧ ((tm u s).2).promises = s.promises)
    (mu : String) (o : List (String × String)) :
    ∀ (ls : List String) (acc : List (String × String) × Engine),
    (((ls.foldl (fun acc l =>
        if (List.lookup l o).isSome then acc else processOne tm mu l acc) acc)).2).processing
      = (acc.2).processing ∧
    (((ls.foldl (fun acc l =>
        if (List.lookup l o).isSome then acc else processOne tm mu l acc) acc)).2).promises
      = (acc.2).promises := by
  intro ls
  induction ls with
  | nil => intro acc; exact ⟨rfl, rfl⟩
  | cons l ls ih =>
    intro acc
    rw [List.foldl_cons]
    by_cases hc : (List.lookup l o).isSome
    · simpa [hc] using ih acc
    · obtain ⟨h1, h2⟩ := ih (processOne tm mu l acc)
      obtain ⟨g1, g2⟩ := processOne_flight tm H mu l acc
      simp only [hc]
      exact ⟨by simpa using h1.trans g1, by simpa using h2.trans g2⟩

/-- Dependency processing never disturbs the in-flight bookkeeping,
provided the recursive transformer does not. -/
theorem processDeps_flight (tm : String → Engine → TResult × Engine)
    (H : ∀ u s, ((tm u s).2).processing = s.processing ∧ ((tm u s).2).promises = s.promises)
    (o : List (String × String)) (a : List String) (mu : String) (s : Engine) :
    ((processDeps tm o a mu s).2).processing = s.processing ∧
    ((processDeps tm o a mu s).2).promises = s.promises := by
  unfold processDeps
  obtain ⟨h1, h2⟩ := foldl_local_flight tm H mu o a
    ((o.map Prod.snd).foldl (fun acc t => processOne tm mu t acc) ([], s))
  obtain ⟨g1, g2⟩ := foldl_processOne_flight tm H mu (o.map Prod.snd) ([], s)
  exact ⟨h1.trans g1, h2.trans g2⟩

/-- The body of a transformation never disturbs the in-flight bookkeeping,
provided the recursive transformer does not. -/
theorem transformBody_flight (ctx : Ctx) (tm : String → Engine → TResult × Engine)
    (H : ∀ u s, ((tm u s).2).processing = s.processing ∧ ((tm u s).2).promises = s.promises)
    (im : Option ImportMap) (u : String) (s : Engine) :
    ((transformBody ctx tm im u s).2).processing = s.processing ∧
    ((transformBody ctx tm im u s).2).promises = s.promises := by
  unfold transformBody readModuleContent
  cases henv : ctx.env u with
  | none => simp [henv]
  | some code =>
    simp only [henv]
    split
    · simp [cacheModule]
    · obtain ⟨h1, h2⟩ := processDeps_flight tm H
        ((dedup (collectedSpecs (ctx.transpile code))).map fun sp =>
          (sp, createOptimizedReplacer u ((im.map ImportMap.imports).getD [])
            ((im.map ImportMap.scopes).getD []) sp))
        (dedup ((collectedSpecs (ctx.transpile code)).filter isRelativeOrFileUrl)) u
        { { s with reads := s.reads ++ [u] } with
          transformedModules := listSet u
            (getCacheUrl ctx.cacheDir u
              (replaceImportMeta
                (replaceImports (ctx.transpile code) ctx.extRes
                  (createOptimizedReplacer u ((im.map ImportMap.imports).getD [])
                    ((im.map ImportMap.scopes).getD []))) u) im)
            ({ s with reads := s.reads ++ [u] }).transformedModules }
      constructor
      · simpa using h1
      · simpa using h2

/-- A transformation leaves the processing-modules set and the pending
promise map exactly as it found them, on every path. -/
theorem transformModule_flight (ctx : Ctx) :
    ∀ (fuel : Nat) (im : Option ImportMap) (u : String) (s : Engine),
    ((transformModule ctx fuel im u s).2).processing = s.processing ∧
    ((transformModule ctx fuel im u s).2).promises = s.promises := by
  intro fuel
  induction fuel with
  | zero => intro im u s; exact ⟨rfl, rfl⟩
  | succ fuel ih =>
    intro im u s
    unfold transformModule
    cases hm : List.lookup u s.transformedModules with
    | some c => simp [hm]
    | none =>
      simp only [hm]
      by_cases hp : u ∈ s.processing
      · by_cases hq : u ∈ s.promises <;> simp [hp, hq]
      · obtain ⟨h1, h2⟩ := transformBody_flight ctx (transformModule ctx fuel im)
          (fun u₀ s₀ => ih im u₀ s₀) im u
          { s with processing := u :: s.processing, promises := u :: s.promises }
        constructor
        · simp only [if_neg hp, h1]
          simp
        · simp only [if_neg hp, h2]
          simp

/-- One dependency edge preserves existing transformation records,
provided the recursive transformer does. -/
theorem processOne_mono (tm : String → Engine → TResult × Engine)
    (H : ∀ u s k c, List.lookup k s.transformedModules = some c →
      List.lookup k ((tm u s).2).transformedModules = some c)
    (mu t : String) (acc : List (String × String) × Engine) (k : String) (c : String)
    (h : List.lookup k (acc.2).transformedModules = some c) :
    List.lookup k ((processOne tm mu t acc).2).transformedModules = some c := by
  unfold processOne processDependency
  split
  · have hh := H (if isRelativeOrFileUrl t then urlResolve mu t else t) acc.2 k c h
    rcases htm : tm (if isRelativeOrFileUrl t then urlResolve mu t else t) acc.2 with ⟨r, s₁⟩
    rw [htm] at hh
    cases r <;> simp_all
  · exact h

/-- The first dependency loop preserves existing transformation records. -/
theorem foldl_processOne_mono (tm : String → Engine → TResult × Engine)
    (H : ∀ u s k c, List.lookup k s.transformedModules = some c →
      List.lookup k ((tm u s).2).transformedModules = some c)
    (mu : String) (k c : String) :
    ∀ (ts : List String) (acc : List (String × String) × Engine),
    List.lookup k (acc.2).transformedModules = some c →
    List.lookup k (((ts.foldl (fun acc t => processOne tm mu t acc) acc)).2).transformedModules
      = some c := by
  intro ts
  induction ts with
  | nil => intro acc h; exact h
  | cons t ts ih =>
    intro acc h
    rw [List.foldl_cons]
    exact ih (processOne tm mu t acc) (processOne_mono tm H mu t acc k c h)

/-- The second dependency loop preserves existing transformation records. -/
theorem foldl_local_mono (tm : String → Engine → TResult × Engine)
    (H : ∀ u s k c, List.lookup k s.transformedModules = some c →
      List.lookup k ((tm u s).2).transformedModules = some c)
    (mu : String) (o : List (String × String)) (k c : String) :
    ∀ (ls : List String) (acc : List (String × String) × Engine),
    List.lookup k (acc.2).transformedModules = some c →
    List.lookup k (((ls.foldl (fun acc l =>
        if (List.lookup l o).isSome then acc else processOne tm mu l acc) acc)).2).transformedModules
      = some c := by
  intro ls
  induction ls with
  | nil => intro acc h; exact h
  | cons l ls ih =>
    intro acc h
    rw [List.foldl_cons]
    by_cases hc : (List.lookup l o).isSome
    · simp only [hc, if_true]
      exact ih acc h
    · simp only [hc, if_false]
      exact ih (processOne tm mu l acc) (processOne_mono tm H mu l acc k c h)

/-- Dependency processing preserves existing transformation records. -/
theorem processDeps_mono (tm : String → Engine → TResult × Engine)
    (H : ∀ u s k c, List.lookup k s.transformedModules = some c →
      List.lookup k ((tm u s).2).transformedModules = some c)
    (o : List (String × String)) (a : List String) (mu : String) (s : Engine)
    (k c : String) (h : List.lookup k s.transformedModules = some c) :
    List.lookup k ((processDeps tm o a mu s).2).transformedModules = some c := by
  unfold processDeps
  exact foldl_local_mono tm H mu o k c a _
    (foldl_processOne_mono tm H mu k c (o.map Prod.snd) ([], s) h)

/-- The transformation body preserves existing transformation records when
the current module has none yet. -/
theorem transformBody_mono (ctx : Ctx) (tm : String → Engine → TResult × Engine)
    (H : ∀ u s k c, List.lookup k s.transformedModules = some c →
      List.lookup k ((tm u s).2).transformedModules = some c)
    (im : Option ImportMap) (u : String) (s : Engine) (k c : String)
    (hnone : List.lookup u s.transformedModules = none)
    (h : List.lookup k s.transformedModules = some c) :
    List.lookup k ((transformBody ctx tm im u s).2).transformedModules = some c := by
  have hku : k ≠ u := by
    intro he
    rw [he, hnone] at h
    exact Option.noConfusion h
  unfold transformBody readModuleContent
  cases henv : ctx.env u with
  | none => simpa [henv] using h
  | some code =>
    simp only [henv]
    split
    · simpa [cacheModule, lookup_listSet_ne _ _ hku] using h
    · apply processDeps_mono tm H
      simpa [lookup_listSet_ne _ _ hku] using h

/-- A transformation preserves existing transformation records. -/
theorem transformModule_mono (ctx : Ctx) :
    ∀ (fuel : Nat) (im : Option ImportMap) (u : String) (s : Engine) (k c : String),
    List.lookup k s.transformedModules = some c →
    List.lookup k ((transformModule ctx fuel im u s).2).transformedModules = some c := by
  intro fuel
  induction fuel with
  | zero => intro im u s k c h; exact h
  | succ fuel ih =>
    intro im u s k c h
    unfold transformModule
    cases hm : List.lookup u s.transformedModules with
    | some c₀ => simpa [hm] using h
    | none =>
      simp only [hm]
      by_cases hp : u ∈ s.processing
      · by_cases hq : u ∈ s.promises <;> simp [hp, hq, h]
      · simp only [if_neg hp]
        exact transformBody_mono ctx (transformModule ctx fuel im)
          (fun u₀ s₀ k₀ c₀ h₀ => ih im u₀ s₀ k₀ c₀ h₀) im u
          { s with processing := u :: s.processing, promises := u :: s.promises } k c hm h

/-- A successful transformation body registers the returned cache location
as the transformation record of its module. -/
theorem transformBody_ok_registered (ctx : Ctx) (tm : String → Engine → TResult × Engine)
    (H : ∀ u s k c, List.lookup k s.transformedModules = some c →
      List.lookup k ((tm u s).2).transformedModules = some c)
    (im : Option ImportMap) (u : String) (s : Engine) (c : String) (s₂ : Engine)
    (hok : transformBody ctx tm im u s = (.ok c, s₂)) :
    List.lookup u s₂.transformedModules = some c := by
  unfold transformBody readModuleContent at hok
  cases henv : ctx.env u with
  | none => simp [henv] at hok
  | some code =>
    simp only [henv] at hok
    split at hok
    · unfold cacheModule at hok
      obtain ⟨h1, h2⟩ := Prod.mk.injEq .. ▸ hok
      obtain rfl : _ = c := TResult.ok.inj h1
      rw [← h2]
      exact lookup_listSet_self ..
    · simp only [Prod.mk.injEq] at hok
      obtain ⟨h1, h2⟩ := hok
      obtain rfl : _ = c := TResult.ok.inj h1
      rw [← h2]
      exact processDeps_mono tm H _ _ _ _ _ _ (lookup_listSet_self ..)

/-- A successful transformModule call registers the returned cache
location for its module, provided in-flight markers and pending promises
agree in the starting state. -/
theorem transformModule_ok_registered (ctx : Ctx) (fuel : Nat) (im : Option ImportMap)
    (u : String) (s : Engine) (c : String) (s₁ : Engine)
    (hwf : s.promises = s.processing)
    (hok : transformModule ctx fuel im u s = (.ok c, s₁)) :
    List.lookup u s₁.transformedModules = some c := by
  cases fuel with
  | zero => simp [transformModule] at hok
  | succ fuel =>
    unfold transformModule at hok
    cases hm : List.lookup u s.transformedModules with
    | some c₀ =>
      simp only [hm] at hok
      obtain ⟨h1, h2⟩ := Prod.mk.injEq .. ▸ hok
      obtain rfl : c₀ = c := TResult.ok.inj h1
      rw [← h2]
      exact hm
    | none =>
      simp only [hm] at hok
      by_cases hp : u ∈ s.processing
      · rw [if_pos hp, if_pos (hwf ▸ hp)] at hok
        exact absurd (congrArg Prod.fst hok) (by simp)
      · rw [if_neg hp] at hok
        simp only [Prod.mk.injEq] at hok
        obtain ⟨h1, h2⟩ := hok
        rcases hb : transformBody ctx (transformModule ctx fuel im) im u
          { s with processing := u :: s.processing, promises := u :: s.promises } with ⟨r, sb⟩
        rw [hb] at h1 h2
        simp only at h1 h2
        subst h1
        have hreg := transformBody_ok_registered ctx (transformModule ctx fuel im)
          (fun u₀ s₀ k₀ c₀ h₀ => transformModule_mono ctx fuel im u₀ s₀ k₀ c₀ h₀) im u
          { s with processing := u :: s.processing, promises := u :: s.promises } c sb hb
        rw [← h2]
        exact hreg

/-- The two-module cyclic environment: module A imports module B and
module B imports module A. -/
def cyclicEnv : String → Option Code := fun x =>
  if x = "file:///A.ts" then some [.spec "file:///B.ts"]
  else if x = "file:///B.ts" then some [.spec "file:///A.ts"] else none

/-- Engine context for the cyclic two-module graph. -/
def cyclicCtx : Ctx :=
  ⟨cyclicEnv, id, id, "cache"⟩

/-- C7: on every execution of the transformation engine on a module, the
in-flight marker, namely membership in the processing-modules set and the
pending-promise map entry, added at the start is removed on every exit
path, success or error: the processing set and the promise map of the
final state are exactly those of the initial state. -/
theorem transform_inflight_marker_restored (ctx : Ctx) (fuel : Nat)
    (im : Option ImportMap) (u : String) (s : Engine) :
    ((transformModule ctx fuel im u s).2).processing = s.processing ∧
    ((transformModule ctx fuel im u s).2).promises = s.promises :=
  transformModule_flight ctx fuel im u s

/-- C5: a successful transformation registers its cache location in the
transformation-record map, and a second call for the same module under the
same resolution table returns the same cache location with the state
untouched: it is answered from the map alone, and in particular performs
no additional source reads. -/
theorem transform_memoized_idempotent (ctx : Ctx) (fuel f₂ : Nat)
    (im : Option ImportMap) (u : String) (s : Engine) (c : String) (s₁ : Engine)
    (hwf : s.promises = s.processing)
    (h : transformModule ctx fuel im u s = (.ok c, s₁)) :
    List.lookup u s₁.transformedModules = some c ∧
    transformModule ctx (f₂ + 1) im u s₁ = (.ok c, s₁) := by
  have hreg := transformModule_ok_registered ctx fuel im u s c s₁ hwf h
  refine ⟨hreg, ?_⟩
  unfold transformModule
  simp [hreg]

/-- C5 witness: a concrete leaf module transformed on a fresh engine; the
second call returns the same cache location and leaves the state alone. -/
theorem transform_memoized_idempotent_witness :
    List.lookup "file:///m.ts"
      ((transformModule ⟨fun x => if x = "file:///m.ts" then some [] else none, id, id, "cache"⟩
        1 none "file:///m.ts" engine0).2).transformedModules =
      some ((getCacheUrl "cache" "file:///m.ts" [] none)) ∧
    transformModule ⟨fun x => if x = "file:///m.ts" then some [] else none, id, id, "cache"⟩
      1 none "file:///m.ts"
      ((transformModule ⟨fun x => if x = "file:///m.ts" then some [] else none, id, id, "cache"⟩
        1 none "file:///m.ts" engine0).2) =
      (.ok (getCacheUrl "cache" "file:///m.ts" [] none),
        (transformModule ⟨fun x => if x = "file:///m.ts" then some [] else none, id, id, "cache"⟩
          1 none "file:///m.ts" engine0).2) :=
  transform_memoized_idempotent
    ⟨fun x => if x = "file:///m.ts" then some [] else none, id, id, "cache"⟩
    1 0 none "file:///m.ts" engine0 (getCacheUrl "cache" "file:///m.ts" [] none)
    ((transformModule ⟨fun x => if x = "file:///m.ts" then some [] else none, id, id, "cache"⟩
      1 none "file:///m.ts" engine0).2)
    (by decide) (by decide)

/-- C1: for the cyclic module graph in which A imports B and B imports A,
the transformation of A terminates with bounded fuel and returns the cache
location registered early for A; and in general, a recursive request for a
module that is still in flight but whose provisional cache location has
been registered in the transformed-modules map returns that registered
location immediately, with the state unchanged, instead of recursing. -/
theorem transform_cycle_terminates_early_registration :
    (transformModule cyclicCtx 3 none "file:///A.ts" engine0).1 =
      TResult.ok (getCacheUrl "cache" "file:///A.ts" [Piece.spec "file:///B.ts"] none) ∧
    (∀ (ctx : Ctx) (fuel : Nat) (im : Option ImportMap) (u : String) (s : Engine) (c : String),
      u ∈ s.processing → List.lookup u s.transformedModules = some c →
      transformModule ctx (fuel + 1) im u s = (.ok c, s)) := by
  constructor
  · decide
  · intro ctx fuel im u s c _ hreg
    unfold transformModule
    simp [hreg]

/-- C1 witness: the general in-flight short-circuit applied to a concrete
in-flight state with a registered provisional location. -/
theorem transform_cycle_terminates_early_registration_witness :
    (transformModule cyclicCtx 3 none "file:///A.ts" engine0).1 =
      TResult.ok (getCacheUrl "cache" "file:///A.ts" [Piece.spec "file:///B.ts"] none) ∧
    transformModule cyclicCtx 1 none "file:///A.ts"
      ⟨[], [("file:///A.ts", "loc")], ["file:///A.ts"], ["file:///A.ts"], [], [], []⟩ =
      (.ok "loc", ⟨[], [("file:///A.ts", "loc")], ["file:///A.ts"], ["file:///A.ts"], [], [], []⟩) :=
  ⟨transform_cycle_terminates_early_registration.1,
    transform_cycle_terminates_early_registration.2 cyclicCtx 0 none "file:///A.ts"
      ⟨[], [("file:///A.ts", "loc")], ["file:///A.ts"], ["file:///A.ts"], [], [], []⟩ "loc"
      (by decide) (by decide)⟩

/-- C2: evaluation of the resolver at the failing input.  With the direct
mapping react to esm.sh react 18 and a scope for esm.sh mapping react to
react 17, active for a requesting module under esm.sh, the replacer
returns the direct target, not the scoped one: the direct import table is
consulted before the scopes, so an applicable scope mapping of the same
key can never win. -/
theorem replacer_direct_beats_scope_at_failing_input :
    createOptimizedReplacer "https://esm.sh/app/main.js"
      [("react", "https://esm.sh/react@18")]
      [("https://esm.sh/", [("react", "https://esm.sh/react@17")])]
      "react" = "https://esm.sh/react@18" ∧
    jsStartsWith "https://esm.sh/app/main.js" "https://esm.sh/" = true ∧
    "https://esm.sh/react@18" ≠ "https://esm.sh/react@17" := by
  refine ⟨by decide, by decide, by decide⟩

/-- C3: evaluation of the resolver at the failing input.  A table key that
ends in a slash never prefix-matches, because the matcher tests the
specifier against the key followed by one more slash: under the mapping of
the at-x-slash key to A-slash the specifier at-x-slash-sub is returned
unchanged rather than resolved to A-slash-sub, and the trailing-slash
example of the class documentation, utils-slash, likewise never matches;
only a key without the trailing slash prefix-matches. -/
theorem replacer_trailing_slash_key_never_matches :
    createOptimizedReplacer "file:///m.ts" [("@x/", "A/")] [] "@x/sub" = "@x/sub" ∧
    "@x/sub" ≠ "A/sub" ∧
    createOptimizedReplacer "file:///m.ts" [("@utils/", "./src/utils/")] [] "@utils/helper" =
      "@utils/helper" ∧
    createOptimizedReplacer "file:///m.ts" [("@x", "A")] [] "@x/sub" = "A/sub" := by
  refine ⟨by decide, by decide, by decide, by decide⟩

/-- Engine context with a single leaf module, used for the content-address
counterexample. -/
def leafCtx : Ctx :=
  ⟨fun x => if x = "file:///m.ts" then some [] else none, id, id, "cache"⟩

/-- Resolution table mapping a to b. -/
def tableA : ImportMap := ⟨[("a", "b")], []⟩

/-- Resolution table mapping c to d. -/
def tableB : ImportMap := ⟨[("c", "d")], []⟩

/-- C4 counterexample: on one engine instance, a second transformation
request for the same specifier under a different resolution table does not
produce a second cache entry: the transformation-record map is keyed by
the module URL alone, so the second request returns the first request's
cache location unchanged and the disk cache still holds exactly one entry. -/
theorem transform_same_specifier_two_tables_one_entry :
    tableA ≠ tableB ∧
    (transformModule leafCtx 1 (some tableB) "file:///m.ts"
      (transformModule leafCtx 1 (some tableA) "file:///m.ts" engine0).2).1 =
      (transformModule leafCtx 1 (some tableA) "file:///m.ts" engine0).1 ∧
    (transformModule leafCtx 1 (some tableB) "file:///m.ts"
      (transformModule leafCtx 1 (some tableA) "file:///m.ts" engine0).2).2.writes.length = 1 := by
  refine ⟨by decide, by decide, by decide⟩

/-- The character list of an appended string is the appended character
lists. -/
theorem sdata_append (a b : String) : (a ++ b).data = a.data ++ b.data :=
  rfl

/-- Two strings with the same character list are equal. -/
theorem str_eq_of_data {a b : String} (h : a.data = b.data) : a = b := by
  cases a
  cases b
  exact congrArg String.mk h

/-- C4 amended: the cache-location derivation does depend on the
resolution table: for one module URL and one transformed text, two
effective tables with different serializations yield distinct cache
locations. -/
theorem getCacheUrl_table_dependent (cacheDir u : String) (code : Code)
    (im₁ im₂ : Option ImportMap)
    (h : serializeImportMap (im₁.getD ⟨[], []⟩) ≠ serializeImportMap (im₂.getD ⟨[], []⟩)) :
    getCacheUrl cacheDir u code im₁ ≠ getCacheUrl cacheDir u code im₂ := by
  intro heq
  apply h
  apply str_eq_of_data
  have hd := congrArg String.data heq
  simp only [getCacheUrl, getCachePath, sdata_append, List.append_assoc] at hd
  exact List.append_cancel_left (List.append_cancel_left (List.append_cancel_left
    (List.append_cancel_left (List.append_cancel_left hd))))

/-- C4 amended witness: the derivation applied to the two concrete tables
of the counterexample yields distinct cache locations. -/
theorem getCacheUrl_table_dependent_witness :
    getCacheUrl "cache" "file:///m.ts" [] (some tableA) ≠
      getCacheUrl "cache" "file:///m.ts" [] (some tableB) :=
  getCacheUrl_table_dependent "cache" "file:///m.ts" [] (some tableA) (some tableB) (by decide)

/-- A successful edge of the dependency loop records the dependency's
cache location. -/
theorem processOne_ok_rel (tm : String → Engine → TResult × Engine) (mu t : String)
    (acc : List (String × String) × Engine) (c : String) (s' : Engine)
    (hrel : isRelativeOrFileUrl t = true)
    (htm : tm (urlResolve mu t) acc.2 = (.ok c, s')) :
    processOne tm mu t acc = (listSet t c acc.1, s') := by
  unfold processOne processDependency
  rw [if_pos (show shouldProcess t = true by simp [shouldProcess, hrel])]
  rw [if_pos hrel, htm]

/-- A failing edge of the dependency loop falls back to the resolved but
uncached specifier and logs a warning. -/
theorem processOne_err_rel (tm : String → Engine → TResult × Engine) (mu t : String)
    (acc : List (String × String) × Engine) (e : TErr) (s' : Engine)
    (hrel : isRelativeOrFileUrl t = true)
    (htm : tm (urlResolve mu t) acc.2 = (.err e, s')) :
    processOne tm mu t acc =
      (listSet t (urlResolve mu t) acc.1,
        { s' with warnings := s'.warnings ++ [warnMsg t] }) := by
  unfold processOne processDependency
  rw [if_pos (show shouldProcess t = true by simp [shouldProcess, hrel])]
  rw [if_pos hrel, htm]

/-- Engine context for a parent module with three local dependencies of
which the second is unreadable. -/
def depsCtx : Ctx :=
  ⟨fun x =>
    if x = "file:///p/m.ts" then some [.spec "./a.ts", .spec "./b.ts", .spec "./c.ts"]
    else if x = "file:///p/a.ts" then some []
    else if x = "file:///p/c.ts" then some [] else none,
   id, id, "cache"⟩

/-- C6: dependency failures are isolated per edge.  First, a module whose
own source is readable always transforms successfully, whatever happens to
its dependencies.  Second, in a dependency batch of three local edges
whose middle transformation fails, the failing edge is recorded as its
specifier resolved against the parent URL, a warning is logged, and the
two other edges are recorded with their cache locations.  Third, on the
concrete three-dependency parent whose middle dependency is unreadable,
the parent transformation succeeds and its cached text keeps the resolved
uncached specifier for the failing edge while every other specifier has
been rewritten away from its written relative form. -/
theorem transform_dependency_failure_isolated :
    (∀ (fuel : Nat) (ctx : Ctx) (im : Option ImportMap) (u : String) (s : Engine),
      (ctx.env u).isSome = true → u ∉ s.processing →
      ((transformModule ctx (fuel + 1) im u s).1).isOk = true) ∧
    (∀ (tm : String → Engine → TResult × Engine) (mu o₁ o₂ o₃ d₁ d₂ d₃ c₁ c₃ : String)
      (e : TErr) (s s₁ s₂ s₃ : Engine),
      isRelativeOrFileUrl d₁ = true → isRelativeOrFileUrl d₂ = true →
      isRelativeOrFileUrl d₃ = true →
      d₁ ≠ d₂ → d₁ ≠ d₃ → d₂ ≠ d₃ →
      tm (urlResolve mu d₁) s = (.ok c₁, s₁) →
      tm (urlResolve mu d₂) s₁ = (.err e, s₂) →
      tm (urlResolve mu d₃) { s₂ with warnings := s₂.warnings ++ [warnMsg d₂] } = (.ok c₃, s₃) →
      processDeps tm [(o₁, d₁), (o₂, d₂), (o₃, d₃)] [] mu s =
        ([(d₁, c₁), (d₂, urlResolve mu d₂), (d₃, c₃)], s₃)) ∧
    (((transformModule depsCtx 2 none "file:///p/m.ts" engine0).1).isOk = true ∧
      (transformModule depsCtx 2 none "file:///p/m.ts" engine0).2.warnings =
        [warnMsg "./b.ts"] ∧
      ((transformModule depsCtx 2 none "file:///p/m.ts" engine0).2.writes.any fun w =>
        w.2.contains (Piece.spec "file:///p/b.ts") &&
        !w.2.contains (Piece.spec "./a.ts") && !w.2.contains (Piece.spec "./b.ts") &&
        !w.2.contains (Piece.spec "./c.ts")) = true) := by
  refine ⟨?_, ?_, by decide, by decide, by decide⟩
  · intro fuel ctx im u s hsome hp
    unfold transformModule
    cases hm : List.lookup u s.transformedModules with
    | some c => simp [hm, TResult.isOk]
    | none =>
      simp only [hm, if_neg hp]
      rcases henv : ctx.env u with _ | code
      · rw [henv] at hsome
        simp at hsome
      · unfold transformBody readModuleContent
        simp only [henv]
        split
        · simp [cacheModule, TResult.isOk]
        · simp [TResult.isOk]
  · intro tm mu o₁ o₂ o₃ d₁ d₂ d₃ c₁ c₃ e s s₁ s₂ s₃ h₁ h₂ h₃ n₁₂ n₁₃ n₂₃ t₁ t₂ t₃
    unfold processDeps
    simp only [List.map_cons, List.map_nil, List.foldl_cons, List.foldl_nil]
    rw [processOne_ok_rel tm mu d₁ ([], s) c₁ s₁ h₁ t₁]
    rw [processOne_err_rel tm mu d₂ (listSet d₁ c₁ [], s₁) e s₂ h₂ t₂]
    rw [processOne_ok_rel tm mu d₃
      (listSet d₂ (urlResolve mu d₂) (listSet d₁ c₁ []),
        { s₂ with warnings := s₂.warnings ++ [warnMsg d₂] }) c₃ s₃ h₃ t₃]
    simp [listSet, n₁₂, n₁₃, n₂₃]

/-- A stub recursive transformer that fails exactly on the module b of the
three-dependency scenario and succeeds, without touching the state, on
every other module. -/
def stubTm : String → Engine → TResult × Engine := fun u s =>
  if u = "file:///p/b.ts" then (.err (.sourceUnavailable u), s)
  else (.ok ("ok:" ++ u), s)

/-- C6 witness: the isolation theorem applied to concrete inputs: a
readable leaf transforms successfully, and the three-edge batch with the
failing middle edge produces the fallback entry, the warning and the two
cache locations. -/
theorem transform_dependency_failure_isolated_witness :
    ((transformModule depsCtx 1 none "file:///p/a.ts" engine0).1).isOk = true ∧
    processDeps stubTm [("o1", "./a.ts"), ("o2", "./b.ts"), ("o3", "./c.ts")] []
      "file:///p/m.ts" engine0 =
      ([("./a.ts", "ok:file:///p/a.ts"),
        ("./b.ts", urlResolve "file:///p/m.ts" "./b.ts"),
        ("./c.ts", "ok:file:///p/c.ts")],
       ⟨[], [], [], [], [], [], [warnMsg "./b.ts"]⟩) :=
  ⟨transform_dependency_failure_isolated.1 0 depsCtx none "file:///p/a.ts" engine0
      (by decide) (by decide),
   transform_dependency_failure_isolated.2.1 stubTm "file:///p/m.ts" "o1" "o2" "o3"
      "./a.ts" "./b.ts" "./c.ts" "ok:file:///p/a.ts" "ok:file:///p/c.ts"
      (.sourceUnavailable "file:///p/b.ts") engine0 engine0 engine0
      ⟨[], [], [], [], [], [], [warnMsg "./b.ts"]⟩
      (by decide) (by decide) (by decide) (by decide) (by decide) (by decide)
      (by decide) (by decide) (by decide)⟩

/-- Lookup in the left part of a concatenated association list. -/
theorem lookup_append_some {α : Type} {k : String} {x : α}
    (l₁ l₂ : List (String × α)) (h : List.lookup k l₁ = some x) :
    List.lookup k (l₁ ++ l₂) = some x := by
  induction l₁ with
  | nil => simp [List.lookup] at h
  | cons kv rest ih =>
    obtain ⟨k₁, v₁⟩ := kv
    by_cases hk : k = k₁
    · subst hk
      rw [lookup_cons_eq] at h
      simpa [lookup_cons_eq] using h
    · rw [lookup_cons_ne _ _ hk] at h
      rw [List.cons_append, lookup_cons_ne _ _ hk]
      exact ih h

/-- Lookup falls through to the right part of a concatenated association
list when the key is absent on the left. -/
theorem lookup_append_none {α : Type} {k : String}
    (l₁ l₂ : List (String × α)) (h : List.lookup k l₁ = none) :
    List.lookup k (l₁ ++ l₂) = List.lookup k l₂ := by
  induction l₁ with
  | nil => simp
  | cons kv rest ih =>
    obtain ⟨k₁, v₁⟩ := kv
    by_cases hk : k = k₁
    · subst hk
      rw [lookup_cons_eq] at h
      exact Option.noConfusion h
    · rw [lookup_cons_ne _ _ hk] at h
      rw [List.cons_append, lookup_cons_ne _ _ hk]
      exact ih h

/-- Lookup in the overridden copy of the first spread operand: keys keep
their place and take the second operand's value when it defines them. -/
theorem lookup_map_mergeStep {α : Type} (b : List (String × α)) (k : String) :
    ∀ (a : List (String × α)),
    List.lookup k (a.map fun kv => match List.lookup kv.1 b with
      | some v => (kv.1, v)
      | none => kv) =
    (List.lookup k a).map fun w => match List.lookup k b with
      | some v => v
      | none => w := by
  intro a
  induction a with
  | nil => simp [List.lookup]
  | cons kv rest ih =>
    obtain ⟨k₁, v₁⟩ := kv
    by_cases hk : k = k₁
    · subst hk
      cases hb : List.lookup k b <;>
        simp [List.map_cons, hb, lookup_cons_eq]
    · cases hb : List.lookup k₁ b <;>
        · simp only [List.map_cons, hb]
          rw [lookup_cons_ne _ _ hk, lookup_cons_ne _ _ hk, ih]

/-- Lookup in the filtered copy of the second spread operand: when the
first operand does not define the key, filtering by absence from the first
operand is invisible to that key. -/
theorem lookup_filter_absent {α : Type} (a : List (String × α)) (k : String)
    (h : List.lookup k a = none) :
    ∀ (b : List (String × α)),
    List.lookup k (b.filter fun kv => (List.lookup kv.1 a).isNone) = List.lookup k b := by
  intro b
  induction b with
  | nil => simp
  | cons kv rest ih =>
    obtain ⟨k₁, v₁⟩ := kv
    by_cases hk : k = k₁
    · subst hk
      simp [List.filter_cons, h, lookup_cons_eq]
    · cases hb : (List.lookup k₁ a).isNone
      · simp [List.filter_cons, hb, ih, lookup_cons_ne _ _ hk]
      · simp [List.filter_cons, hb, ih, lookup_cons_ne _ _ hk]

/-- A key defined by the second spread operand takes its value in the
spread merge. -/
theorem lookup_jsMerge_right {α : Type} (a b : List (String × α)) (k : String) (v : α)
    (h : List.lookup k b = some v) : List.lookup k (jsMerge a b) = some v := by
  unfold jsMerge
  cases ha : List.lookup k a with
  | some w =>
    apply lookup_append_some
    rw [lookup_map_mergeStep b k a, ha]
    simp [h]
  | none =>
    rw [lookup_append_none]
    · rw [lookup_filter_absent a k ha b]
      exact h
    · rw [lookup_map_mergeStep b k a, ha]
      rfl

/-- A key not defined by the second spread operand keeps the first
operand's value in the spread merge. -/
theorem lookup_jsMerge_left {α : Type} (a b : List (String × α)) (k : String)
    (h : List.lookup k b = none) : List.lookup k (jsMerge a b) = List.lookup k a := by
  unfold jsMerge
  cases ha : List.lookup k a with
  | some w =>
    rw [lookup_append_some]
    rw [lookup_map_mergeStep b k a, ha]
    simp [h]
  | none =>
    rw [lookup_append_none]
    · rw [lookup_filter_absent a k ha b, h]
    · rw [lookup_map_mergeStep b k a, ha]
      rfl

/-- C8 counterexample: when a deno.json import map is discovered and
merged, a key present in both the caller-supplied instance map and the
discovered map takes the discovered map's target in the effective map, not
the caller's: the discovered table is spread last and therefore has the
highest priority, not the lowest. -/
theorem importMap_discovery_overrides_caller :
    effectiveImportMapOf (some ⟨[("@x", "CALLER")], []⟩) none
      (some ⟨[("@x", "CONFIG")], []⟩) true true =
      some ⟨[("@x", "CONFIG")], []⟩ ∧
    "CONFIG" ≠ "CALLER" := by
  refine ⟨by decide, by decide⟩

/-- C8 amended: in the effective import map built by the import entry
point with auto-discovery active, no per-call map and a file target, the
discovered deno.json map has the highest priority: every key it defines
resolves to its target, and only keys it does not define keep the
caller-supplied instance map's target. -/
theorem effectiveImportMap_discovered_priority (inst config : ImportMap) (k : String) :
    effectiveImportMapOf (some inst) none (some config) true true =
      some ⟨jsMerge inst.imports config.imports, jsMerge inst.scopes config.scopes⟩ ∧
    (∀ v, List.lookup k config.imports = some v →
      List.lookup k (jsMerge inst.imports config.imports) = some v) ∧
    (List.lookup k config.imports = none →
      List.lookup k (jsMerge inst.imports config.imports) = List.lookup k inst.imports) := by
  refine ⟨by simp [effectiveImportMapOf], ?_, ?_⟩
  · intro v hv
    exact lookup_jsMerge_right inst.imports config.imports k v hv
  · intro hn
    exact lookup_jsMerge_left inst.imports config.imports k hn

/-- C8 amended witness: the priority theorem applied to the concrete
conflicting and non-conflicting keys. -/
theorem effectiveImportMap_discovered_priority_witness :
    effectiveImportMapOf (some ⟨[("@x", "CALLER"), ("@y", "KEEP")], []⟩) none
      (some ⟨[("@x", "CONFIG")], []⟩) true true =
      some ⟨jsMerge [("@x", "CALLER"), ("@y", "KEEP")] [("@x", "CONFIG")],
        jsMerge [] []⟩ ∧
    List.lookup "@x" (jsMerge [("@x", "CALLER"), ("@y", "KEEP")] [("@x", "CONFIG")]) =
      some "CONFIG" ∧
    List.lookup "@y" (jsMerge [("@x", "CALLER"), ("@y", "KEEP")] [("@x", "CONFIG")]) =
      List.lookup "@y" [("@x", "CALLER"), ("@y", "KEEP")] :=
  ⟨(effectiveImportMap_discovered_priority ⟨[("@x", "CALLER"), ("@y", "KEEP")], []⟩
      ⟨[("@x", "CONFIG")], []⟩ "@x").1,
   (effectiveImportMap_discovered_priority ⟨[("@x", "CALLER"), ("@y", "KEEP")], []⟩
      ⟨[("@x", "CONFIG")], []⟩ "@x").2.1 "CONFIG" (by decide),
   (effectiveImportMap_discovered_priority ⟨[("@x", "CALLER"), ("@y", "KEEP")], []⟩
      ⟨[("@x", "CONFIG")], []⟩ "@y").2.2 (by decide)⟩

/-- C9: a specifier already present in the memory cache of an importer
instance is answered immediately with the previously loaded module value
and an unchanged state, regardless of the per-call import map: the
per-call map is universally quantified and does not occur in the result. -/
theorem import_memory_cache_ignores_map (ctx : Ctx) (importMetaUrl : String)
    (instanceMap : Option ImportMap) (autoDiscover : Bool)
    (discover : String → Option ImportMap) (load : String → String) (fuel : Nat)
    (specifier : String) (callMap : Option ImportMap) (s : Engine) (v : String)
    (h : List.lookup specifier s.cache = some v) :
    importModule ctx importMetaUrl instanceMap autoDiscover discover load fuel
      specifier callMap s = (.ok v, s) := by
  unfold importModule
  simp [h]

/-- C9 witness: the cache hit on a concrete warmed-up state, under two
different per-call import maps. -/
theorem import_memory_cache_ignores_map_witness :
    importModule leafCtx "file:///lib/mod.ts" none true (fun _ => none) id 1
      "./m.ts" (some tableA) ⟨[("./m.ts", "V")], [], [], [], [], [], []⟩ =
      (.ok "V", ⟨[("./m.ts", "V")], [], [], [], [], [], []⟩) ∧
    importModule leafCtx "file:///lib/mod.ts" none true (fun _ => none) id 1
      "./m.ts" (some tableB) ⟨[("./m.ts", "V")], [], [], [], [], [], []⟩ =
      (.ok "V", ⟨[("./m.ts", "V")], [], [], [], [], [], []⟩) :=
  ⟨import_memory_cache_ignores_map leafCtx "file:///lib/mod.ts" none true (fun _ => none)
      id 1 "./m.ts" (some tableA) ⟨[("./m.ts", "V")], [], [], [], [], [], []⟩ "V" (by decide),
   import_memory_cache_ignores_map leafCtx "file:///lib/mod.ts" none true (fun _ => none)
      id 1 "./m.ts" (some tableB) ⟨[("./m.ts", "V")], [], [], [], [], [], []⟩ "V" (by decide)⟩

/-- One leading same-directory dot segment of a relative specifier is
consumed without changing the resolution directory. -/
theorem relResolve_dot_step (dir t : List Char) :
    relResolve dir ('.' :: '/' :: t) = relResolve dir t := rfl

/-- One leading parent dot segment of a relative specifier pops the
resolution directory to its parent. -/
theorem relResolve_dotdot_step (dir t : List Char) :
    relResolve dir ('.' :: '.' :: '/' :: t) = relResolve (parentDir dir) t := rfl

/-- A relative specifier with no further leading dot segment is appended
to the resolution directory. -/
theorem relResolve_plain (dir : List Char) (c : Char) (t : List Char) (hc : c ≠ '.') :
    relResolve dir (c :: t) = dir ++ c :: t := by
  unfold relResolve
  rw [if_neg hc]

/-- A string whose first character is not a letter has no URL scheme. -/
theorem hasUrlScheme_not_alpha (c : Char) (rest : List Char) (h : c.isAlpha = false) :
    hasUrlScheme ⟨c :: rest⟩ = false := by
  simp [hasUrlScheme, h]

/-- C10: the import entry point resolves its specifier against the URL of
the importer library's own module file, never against a working directory,
which is not an input of the resolution at all.  An absolute URL is used
as given.  A root-relative specifier, one starting with a slash, resolves
against the origin of that module URL.  Every other relative specifier
resolves against the directory of that module URL: in general via the
dot-segment resolution seeded with that directory, and in closed form a
dot-slash specifier lands in that directory, a dot-dot-slash specifier in
its parent directory, and a plain relative specifier is appended to that
directory. -/
theorem import_specifier_resolved_against_meta_url (importMetaUrl specifier : String) :
    (hasUrlScheme specifier = true → importTargetUrl importMetaUrl specifier = specifier) ∧
    (∀ t : List Char, importTargetUrl importMetaUrl ⟨'/' :: t⟩ =
      originOf importMetaUrl ++ ⟨'/' :: t⟩) ∧
    (hasUrlScheme specifier = false → jsHead specifier ≠ some '/' →
      importTargetUrl importMetaUrl specifier =
        ⟨relResolve (dirOf importMetaUrl).data specifier.data⟩) ∧
    (∀ (c : Char) (t : List Char), c ≠ '.' →
      importTargetUrl importMetaUrl ⟨'.' :: '/' :: c :: t⟩ =
        ⟨(dirOf importMetaUrl).data ++ c :: t⟩) ∧
    (∀ (c : Char) (t : List Char), c ≠ '.' →
      importTargetUrl importMetaUrl ⟨'.' :: '.' :: '/' :: c :: t⟩ =
        ⟨parentDir (dirOf importMetaUrl).data ++ c :: t⟩) ∧
    (hasUrlScheme specifier = false → jsHead specifier ≠ some '.' →
      jsHead specifier ≠ some '/' →
      importTargetUrl importMetaUrl specifier = ⟨(dirOf importMetaUrl).data ++ specifier.data⟩) := by
  refine ⟨?_, ?_, ?_, ?_, ?_, ?_⟩
  · intro h
    simp [importTargetUrl, urlResolve, h]
  · intro t
    unfold importTargetUrl urlResolve
    rw [if_neg (by simp [hasUrlScheme_not_alpha '/' t (by decide)])]
    rw [if_pos (show jsHead ⟨'/' :: t⟩ = some '/' from rfl)]
  · intro h hslash
    unfold importTargetUrl urlResolve
    rw [if_neg (by simp [h]), if_neg hslash]
  · intro c t hc
    unfold importTargetUrl urlResolve
    rw [if_neg (by simp [hasUrlScheme_not_alpha '.' ('/' :: c :: t) (by decide)])]
    rw [if_neg (show jsHead ⟨'.' :: '/' :: c :: t⟩ ≠ some '/' by simp [jsHead])]
    show String.mk (relResolve (dirOf importMetaUrl).data ('.' :: '/' :: c :: t)) = _
    exact congrArg String.mk
      ((relResolve_dot_step (dirOf importMetaUrl).data (c :: t)).trans
        (relResolve_plain (dirOf importMetaUrl).data c t hc))
  · intro c t hc
    unfold importTargetUrl urlResolve
    rw [if_neg (by simp [hasUrlScheme_not_alpha '.' ('.' :: '/' :: c :: t) (by decide)])]
    rw [if_neg (show jsHead ⟨'.' :: '.' :: '/' :: c :: t⟩ ≠ some '/' by simp [jsHead])]
    show String.mk (relResolve (dirOf importMetaUrl).data ('.' :: '.' :: '/' :: c :: t)) = _
    exact congrArg String.mk
      ((relResolve_dotdot_step (dirOf importMetaUrl).data (c :: t)).trans
        (relResolve_plain (parentDir (dirOf importMetaUrl).data) c t hc))
  · intro h hdot hslash
    unfold importTargetUrl urlResolve
    rw [if_neg (by simp [h]), if_neg hslash]
    obtain ⟨sd⟩ := specifier
    cases sd with
    | nil => simp [relResolve]
    | cons c t =>
      have hc : c ≠ '.' := by
        intro he
        exact hdot (by simp [jsHead, he])
      unfold relResolve
      rw [if_neg hc]

/-- C10 witness: the resolution theorem applied to a concrete library
module URL and one concrete specifier of each form: absolute,
root-relative, general relative, dot-slash relative, dot-dot-slash
relative and plain relative. -/
theorem import_specifier_resolved_against_meta_url_witness :
    importTargetUrl "file:///lib/ts_importer.ts" "https://deno.land/x/mod.ts" =
      "https://deno.land/x/mod.ts" ∧
    importTargetUrl "file:///lib/ts_importer.ts" ⟨'/' :: "m.ts".data⟩ =
      originOf "file:///lib/ts_importer.ts" ++ ⟨'/' :: "m.ts".data⟩ ∧
    importTargetUrl "file:///lib/ts_importer.ts" "../m.ts" =
      ⟨relResolve (dirOf "file:///lib/ts_importer.ts").data "../m.ts".data⟩ ∧
    importTargetUrl "file:///lib/ts_importer.ts" ⟨'.' :: '/' :: 'm' :: ".ts".data⟩ =
      ⟨(dirOf "file:///lib/ts_importer.ts").data ++ 'm' :: ".ts".data⟩ ∧
    importTargetUrl "file:///lib/ts_importer.ts" ⟨'.' :: '.' :: '/' :: 'm' :: ".ts".data⟩ =
      ⟨parentDir (dirOf "file:///lib/ts_importer.ts").data ++ 'm' :: ".ts".data⟩ ∧
    importTargetUrl "file:///lib/ts_importer.ts" "m.ts" =
      ⟨(dirOf "file:///lib/ts_importer.ts").data ++ "m.ts".data⟩ :=
  ⟨(import_specifier_resolved_against_meta_url "file:///lib/ts_importer.ts"
      "https://deno.land/x/mod.ts").1 (by decide),
   (import_specifier_resolved_against_meta_url "file:///lib/ts_importer.ts"
      "m.ts").2.1 "m.ts".data,
   (import_specifier_resolved_against_meta_url "file:///lib/ts_importer.ts"
      "../m.ts").2.2.1 (by decide) (by decide),
   (import_specifier_resolved_against_meta_url "file:///lib/ts_importer.ts"
      "m.ts").2.2.2.1 'm' ".ts".data (by decide),
   (import_specifier_resolved_against_meta_url "file:///lib/ts_importer.ts"
      "m.ts").2.2.2.2.1 'm' ".ts".data (by decide),
   (import_specifier_resolved_against_meta_url "file:///lib/ts_importer.ts" "m.ts").2.2.2.2.2
      (by decide) (by decide) (by decide)⟩
